import Mathlib

/-!
Verification of the pRRT parallel kinematic RRT planner
(`ompl/kinematic/planners/rrt/src/pRRT.cpp`).

States are vectors of rationals modelling the planner's `double` arrays.
Each definition is a shallow embedding of the corresponding piece of the
source: the per-coordinate steering rule of `threadSolve`, the shared
incumbent (`SolutionInfo`) and its update paths, the worker loop's phase
structure, the orchestrator's goal/seeding prologue in `solve`, the
solution-path reconstruction, and `getStates`.
-/

/-- A configuration-space state: one rational per dimension
(models the `double values[]` array of `base::State`). -/
abbrev PState := List ℚ

/-- A tree node: a state and an optional parent, given as an index into an
append-only arena (models `Motion` with its `parent` pointer; `none` is the
`NULL` parent of a seeded start motion). -/
structure Motion where
  state  : PState
  parent : Option ℕ
  deriving DecidableEq, Repr

/-- The nearest-neighbour tree contents, as the append-only arena of motions
(models the set of nodes held by `m_nn`). -/
abbrev Arena := List Motion

/- ### Steering (threadSolve, lines 49-51 and 71-75) -/

/-- `range[i] = m_rho * (maxValue - minValue)` for component `i`
(pRRT.cpp line 51); a component is its `(minValue, maxValue)` pair. -/
def compRange (rho : ℚ) (c : ℚ × ℚ) : ℚ := rho * (c.2 - c.1)

/-- One coordinate of the steered state (pRRT.cpp lines 73-74):
`diff = rstate[i] - nstate[i];`
`xstate[i] = fabs(diff) < range[i] ? rstate[i] : nstate[i] + diff * m_rho`. -/
def steerCoord (rho rng r n : ℚ) : ℚ :=
  if |r - n| < rng then r else n + (r - n) * rho

/-- The steered state `xstate` computed by the per-dimension loop
(pRRT.cpp lines 71-75), over the component list, candidate `rstate`
and nearest state `nstate`. -/
def steer (rho : ℚ) : List (ℚ × ℚ) → PState → PState → PState
  | c :: cs, r :: rs, n :: ns =>
      steerCoord rho (compRange rho c) r n :: steer rho cs rs ns
  | _, _, _ => []

theorem steer_nil (rho : ℚ) (r n : PState) : steer rho [] r n = [] := by
  cases r <;> cases n <;> rfl

theorem steer_cons (rho : ℚ) (c : ℚ × ℚ) (cs : List (ℚ × ℚ))
    (r n : ℚ) (rs ns : PState) :
    steer rho (c :: cs) (r :: rs) (n :: ns) =
      steerCoord rho (compRange rho c) r n :: steer rho cs rs ns := rfl

/-- Index-wise characterisation of `steer`: coordinate `i` of the steered
state is `steerCoord` applied to component `i` and the two states'
coordinates `i`. -/
theorem steer_get (rho : ℚ) (comps : List (ℚ × ℚ)) (r n : PState)
    (hr : r.length = comps.length) (hn : n.length = comps.length)
    (i : ℕ) (hi : i < comps.length) :
    (steer rho comps r n).get? i =
      some (steerCoord rho (compRange rho (comps.get ⟨i, hi⟩))
        (r.get ⟨i, by rw [hr]; exact hi⟩) (n.get ⟨i, by rw [hn]; exact hi⟩)) := by
  induction comps generalizing r n i with
  | nil => exact absurd hi (Nat.not_lt_zero i)
  | cons c cs ih =>
      cases r with
      | nil => simp at hr
      | cons rh rt =>
          cases n with
          | nil => simp at hn
          | cons nh nt =>
              cases i with
              | zero => simp [steer_cons]
              | succ j =>
                  simp only [steer_cons, List.get?_cons_succ]
                  have hr' : rt.length = cs.length := by
                    simpa using hr
                  have hn' : nt.length = cs.length := by
                    simpa using hn
                  have hj : j < cs.length := Nat.lt_of_succ_lt_succ hi
                  simpa using ih rt nt hr' hn' j hj

/- ### The shared incumbent (SolutionInfo, threadSolve lines 88-107) -/

/-- The shared incumbent: exact-solution index, approximate-solution index,
and recorded goal distance (initially `+infinity`, modelled as `⊤`).
Models `pRRT::SolutionInfo` with motions named by arena index. -/
structure SolutionInfo where
  solution  : Option ℕ
  approxsol : Option ℕ
  approxdif : WithTop ℚ
  deriving DecidableEq, Repr

/-- The incumbent as `solve` initialises it (pRRT.cpp lines 150-153):
no exact solution, no approximate solution, distance `+infinity`. -/
def initSolutionInfo : SolutionInfo := ⟨none, none, ⊤⟩

/-- The exact-solution write (pRRT.cpp lines 92-95): under the lock,
unconditionally store the motion's distance and the motion. -/
def recordExact (s : SolutionInfo) (m : ℕ) (d : ℚ) : SolutionInfo :=
  { s with solution := some m, approxdif := (d : WithTop ℚ) }

/-- The locked half of the approximate-solution update
(pRRT.cpp lines 101-105): overwrite distance and motion only when the new
distance is strictly smaller than the one stored now. -/
def recordApproxLocked (s : SolutionInfo) (m : ℕ) (d : ℚ) : SolutionInfo :=
  if (d : WithTop ℚ) < s.approxdif then
    { s with approxsol := some m, approxdif := (d : WithTop ℚ) }
  else s

/-- One write some worker performs on the incumbent: either the exact-solution
write of lines 92-96 or the double-checked approximate update of
lines 98-107 (the writes are serialised by `sol->lock`). -/
inductive IncumbentWrite where
  | exact (m : ℕ) (d : ℚ)
  | approx (m : ℕ) (d : ℚ)
  deriving DecidableEq, Repr

/-- Apply one serialised incumbent write. The unlocked pre-check of line 98
only avoids taking the lock: a write that reaches the locked re-check is
exactly `recordApproxLocked`, so the post-state of an `approx` event is
`recordApproxLocked` of the pre-state. -/
def applyWrite (s : SolutionInfo) : IncumbentWrite → SolutionInfo
  | .exact m d => recordExact s m d
  | .approx m d => recordApproxLocked s m d

/-- The distance `solve` finally reports (pRRT.cpp line 189:
`goal->setDifference(sol.approxdif)`). -/
def reportedDifference (s : SolutionInfo) : WithTop ℚ := s.approxdif

/-- Result of one attempt of the double-checked approximate update
(pRRT.cpp lines 98-107): whether the lock was taken, whether the stored
pair was overwritten, and the stored distance after the locked section. -/
structure ApproxAttempt where
  tookLock : Bool
  wrote    : Bool
  storedAfter : WithTop ℚ
  deriving DecidableEq, Repr

/-- The double-checked approximate update (pRRT.cpp lines 98-107).
`unlockedVal` is the value of `sol->approxdif` read at line 98 without the
lock; `lockedVal` is its value at the re-check of line 101 once the lock is
held (another thread may have changed it in between). -/
def tryImproveApprox (d : ℚ) (unlockedVal lockedVal : WithTop ℚ) :
    ApproxAttempt :=
  if (d : WithTop ℚ) < unlockedVal then
    if (d : WithTop ℚ) < lockedVal then ⟨true, true, (d : WithTop ℚ)⟩
    else ⟨true, false, lockedVal⟩
  else ⟨false, false, lockedVal⟩

/- ### The worker loop's phase structure (threadSolve, lines 57-109) -/

/-- Outcome of one iteration's body once it is under way: `checkMotion`
rejected the steered state (lines 77, no insertion), or the new motion was
inserted and `goal->isSatisfied` returned true with distance `d`
(lines 88-96, `break`), or it returned false with distance `d`
(lines 88-89 and 98-107, keep looping). `m` is the new motion's arena
index. -/
inductive IterOutcome where
  | rejected
  | solved (m : ℕ) (d : ℚ)
  | unsolved (m : ℕ) (d : ℚ)
  deriving DecidableEq, Repr

/-- Effect of one completed iteration on the shared incumbent: a rejected
candidate writes nothing, an exact find performs the unconditional write of
lines 92-95, and any other accepted motion performs the double-checked
approximate update of lines 98-107. -/
def iterEffect (s : SolutionInfo) : IterOutcome → SolutionInfo
  | .rejected => s
  | .solved m d => recordExact s m d
  | .unsolved m d => recordApproxLocked s m d

/-- Where a worker thread stands in its loop: at the loop head about to
evaluate the condition of line 57, in the middle of an iteration whose
outcome will be `o`, or out of the loop (line 110 onward). -/
inductive WorkerPhase where
  | atHead
  | midIteration (o : IterOutcome)
  | finished
  deriving DecidableEq, Repr

/-- One step of a worker thread against the shared incumbent `s`.
`beforeDeadline` is the value of `time::now() < endTime` at this step and
`next` is the outcome the environment (sampler, nearest-neighbour index,
`checkMotion`, goal test) determines for the iteration begun at this head.
At the loop head the worker re-reads `sol->solution` and the clock
(line 57); mid-iteration it applies the iteration's incumbent effect and
either breaks (line 96) or returns to the head, never consulting the
condition. -/
def workerStep (ph : WorkerPhase) (s : SolutionInfo) (beforeDeadline : Bool)
    (next : IterOutcome) : WorkerPhase × SolutionInfo :=
  match ph with
  | .atHead =>
      if s.solution.isSome || !beforeDeadline then (.finished, s)
      else (.midIteration next, s)
  | .midIteration o =>
      match o with
      | .solved m d => (.finished, recordExact s m d)
      | .unsolved m d => (.atHead, recordApproxLocked s m d)
      | .rejected => (.atHead, s)
  | .finished => (.finished, s)

/- ### The orchestrator prologue of solve (lines 115-157) -/

/-- What the modelled prologue of `solve` records: whether it returned
early (and with what value), the tree contents after seeding, how many
"Initial state is invalid!" errors were logged, whether the
"Goal undefined" error was logged, whether the deadline was computed
(line 127), and whether worker threads were launched (line 157). -/
structure SolveSetupResult where
  returned : Option Bool
  tree : Arena
  startErrors : ℕ
  goalError : Bool
  deadlineComputed : Bool
  threadsLaunched : Bool
  deriving DecidableEq, Repr

/-- One step of the seeding loop of `solve` (pRRT.cpp lines 129-140): a
start state passing `satisfiesBounds` and `isValid` is added to the tree as
a parentless motion; otherwise an error is logged and the state skipped. -/
def seedStep (sb iv : PState → Bool) (acc : Arena × ℕ) (st : PState) :
    Arena × ℕ :=
  if sb st && iv st then (acc.1 ++ [⟨st, none⟩], acc.2) else (acc.1, acc.2 + 1)

/-- The whole seeding loop over the not-yet-added start states
(pRRT.cpp lines 129-140), returning the tree and the number of rejected
start states. -/
def seedTree (sb iv : PState → Bool) (tree : Arena) (starts : List PState) :
    Arena × ℕ :=
  starts.foldl (seedStep sb iv) (tree, 0)

/-- The prologue of `solve` (pRRT.cpp lines 115-157): fail if the goal is
missing (lines 121-125, before the deadline of line 127 and before
seeding); otherwise compute the deadline, seed the tree, fail if it is
empty (lines 142-146), and otherwise launch the worker threads
(lines 150-157). `hasGoal` models the `dynamic_cast` of line 118
succeeding; `sb` and `iv` are the external bounds and validity checks. -/
def solveSetup (hasGoal : Bool) (sb iv : PState → Bool) (tree : Arena)
    (starts : List PState) : SolveSetupResult :=
  if !hasGoal then
    { returned := some false, tree := tree, startErrors := 0,
      goalError := true, deadlineComputed := false, threadsLaunched := false }
  else
    let p := seedTree sb iv tree starts
    if p.1.length = 0 then
      { returned := some false, tree := p.1, startErrors := p.2,
        goalError := false, deadlineComputed := true,
        threadsLaunched := false }
    else
      { returned := none, tree := p.1, startErrors := p.2,
        goalError := false, deadlineComputed := true,
        threadsLaunched := true }

/- ### Path reconstruction (solve, lines 171-188) -/

/-- The chain of motions collected by the walk of pRRT.cpp lines 175-179:
starting at arena index `i`, push the motion and follow its `parent`
reference until a parentless motion. `fuel` bounds the walk so the
function is total; any `fuel > i` suffices on a well-formed arena. -/
def chainFrom (a : Arena) : ℕ → ℕ → List Motion
  | 0, _ => []
  | fuel + 1, i =>
      match a.get? i with
      | none => []
      | some m =>
          m :: (match m.parent with
                | none => []
                | some p => chainFrom a fuel p)

/-- The reconstructed solution path (pRRT.cpp lines 174-188): the states of
the parent chain from the solution node, in reverse order (the loop of
line 183 copies `mpath` back to front). -/
def reconstructPath (a : Arena) (sol : ℕ) : List PState :=
  ((chainFrom a (a.length) sol).map (fun m => m.state)).reverse

/-- The parent reference of the motion at index `i` points strictly earlier
in the arena (or is absent). -/
def parentEarlier (i : ℕ) (m : Motion) : Bool :=
  match m.parent with
  | none => true
  | some p => p < i

/-- Well-formed arena: every parent reference points strictly earlier in
the arena. This is how `solve` and `threadSolve` build the tree: a new
motion's parent is a motion already inserted. -/
def wfArena (a : Arena) : Prop :=
  ∀ i (h : i < a.length), parentEarlier i (a.get ⟨i, h⟩) = true

/- ### getStates (lines 201-208) -/

/-- `m_nn.list(motions)` (pRRT.cpp line 204): reading the tree's contents
returns the motion list and leaves the tree as it was. -/
def nnList (tree : Arena) : List Motion × Arena := (tree, tree)

/-- `pRRT::getStates` (pRRT.cpp lines 201-208): list the tree's motions and
copy out their states, returning the states and the tree as the call leaves
it. -/
def getStates (tree : Arena) : List PState × Arena :=
  let p := nnList tree
  (p.1.map (fun m => m.state), p.2)

/- ### Claims about steering (C1, C3) -/

/-- C1 (counterexample): the spec says that when the candidate's coordinate
is not within `rho * range` of the nearest node's, the steered coordinate is
the nearest coordinate moved by exactly `rho * range` toward the candidate.
At `rho = 1/2`, component bounds `(0, 1)`, nearest coordinate `0` and
candidate coordinate `4/5`, the candidate is not within range, yet the code
(line 74: `nstate + diff * m_rho`) produces `2/5`, not `0 + 1/2` (nor
`0 - 1/2`): the step taken is `rho * |diff|`, not `rho * range`. -/
theorem steer_no_full_clamp_cex :
    ¬(|((4:ℚ)/5) - 0| < compRange (1/2) (0, 1)) ∧
    steer (1/2) [((0:ℚ), (1:ℚ))] [(4:ℚ)/5] [(0:ℚ)] = [(2:ℚ)/5] ∧
    (2:ℚ)/5 ≠ 0 + compRange (1/2) (0, 1) ∧
    (2:ℚ)/5 ≠ 0 - compRange (1/2) (0, 1) := by
  refine ⟨?_, ?_, ?_, ?_⟩
  · rw [compRange]; rw [show |((4:ℚ)/5) - 0| = 4/5 by rw [abs_eq_self.mpr] <;> norm_num]
    norm_num
  · rw [show steer (1/2) [((0:ℚ), (1:ℚ))] [(4:ℚ)/5] [(0:ℚ)] =
        [steerCoord (1/2) (compRange (1/2) ((0:ℚ), (1:ℚ))) ((4:ℚ)/5) 0] from rfl]
    rw [steerCoord, compRange]
    rw [show |((4:ℚ)/5) - 0| = 4/5 by rw [abs_eq_self.mpr] <;> norm_num]
    norm_num
  · rw [compRange]; norm_num
  · rw [compRange]; norm_num

/-- C1 (amended): per coordinate, if the candidate is within
`rho * (component range)` of the nearest node the steered coordinate is the
candidate's; otherwise the nearest node's coordinate is moved by `rho` times
the coordinate difference toward the candidate (a fraction `rho` of the way,
not a full `rho * range` step). -/
theorem steer_moves_rho_fraction (rho : ℚ) (comps : List (ℚ × ℚ))
    (r n : PState) (hr : r.length = comps.length)
    (hn : n.length = comps.length) (i : ℕ) (hi : i < comps.length) :
    (steer rho comps r n).get? i =
      some (if |r.get ⟨i, by rw [hr]; exact hi⟩ -
                 n.get ⟨i, by rw [hn]; exact hi⟩| <
              compRange rho (comps.get ⟨i, hi⟩)
            then r.get ⟨i, by rw [hr]; exact hi⟩
            else n.get ⟨i, by rw [hn]; exact hi⟩ +
              (r.get ⟨i, by rw [hr]; exact hi⟩ -
                n.get ⟨i, by rw [hn]; exact hi⟩) * rho) := by
  rw [steer_get rho comps r n hr hn i hi]; rfl

/-- Witness for `steer_moves_rho_fraction` at `rho = 1/2`, one component
`(0, 1)`, candidate `[4/5]`, nearest `[0]`, coordinate `0`. -/
theorem steer_moves_rho_fraction_witness :
    ([(4:ℚ)/5].length = [((0:ℚ), (1:ℚ))].length) ∧
    ([(0:ℚ)].length = [((0:ℚ), (1:ℚ))].length) ∧
    (0 < [((0:ℚ), (1:ℚ))].length) ∧
    (steer (1/2) [((0:ℚ), (1:ℚ))] [(4:ℚ)/5] [(0:ℚ)]).get? 0 =
      some ((2:ℚ)/5) := by
  refine ⟨rfl, rfl, by decide, ?_⟩
  have h := steer_moves_rho_fraction (1/2) [((0:ℚ), (1:ℚ))] [(4:ℚ)/5]
    [(0:ℚ)] rfl rfl 0 (by decide)
  rw [h]
  simp only [List.get, compRange]
  rw [show |((4:ℚ)/5) - 0| = 4/5 by rw [abs_eq_self.mpr] <;> norm_num]
  norm_num

/-- C3 (confirmed): when the candidate's and nearest node's coordinates both
lie within the component bounds and `rho` is non-negative, every coordinate
of the steered state is within `rho * (component range)` of the nearest
node's coordinate. -/
theorem steer_within_one_step (rho : ℚ) (comps : List (ℚ × ℚ))
    (r n : PState) (hrho : 0 ≤ rho) (hr : r.length = comps.length)
    (hn : n.length = comps.length) (i : ℕ) (hi : i < comps.length)
    (hr1 : (comps.get ⟨i, hi⟩).1 ≤ r.get ⟨i, by rw [hr]; exact hi⟩)
    (hr2 : r.get ⟨i, by rw [hr]; exact hi⟩ ≤ (comps.get ⟨i, hi⟩).2)
    (hn1 : (comps.get ⟨i, hi⟩).1 ≤ n.get ⟨i, by rw [hn]; exact hi⟩)
    (hn2 : n.get ⟨i, by rw [hn]; exact hi⟩ ≤ (comps.get ⟨i, hi⟩).2) :
    ∃ x, (steer rho comps r n).get? i = some x ∧
      |x - n.get ⟨i, by rw [hn]; exact hi⟩| ≤
        compRange rho (comps.get ⟨i, hi⟩) := by
  refine ⟨steerCoord rho (compRange rho (comps.get ⟨i, hi⟩))
    (r.get ⟨i, by rw [hr]; exact hi⟩) (n.get ⟨i, by rw [hn]; exact hi⟩),
    steer_get rho comps r n hr hn i hi, ?_⟩
  rw [steerCoord]
  split
  · next h => exact le_of_lt h
  · next h =>
      have habs : |r.get ⟨i, by rw [hr]; exact hi⟩ -
          n.get ⟨i, by rw [hn]; exact hi⟩| ≤
          (comps.get ⟨i, hi⟩).2 - (comps.get ⟨i, hi⟩).1 :=
        abs_sub_le_iff.mpr ⟨by linarith, by linarith⟩
      have heq : n.get ⟨i, by rw [hn]; exact hi⟩ +
          (r.get ⟨i, by rw [hr]; exact hi⟩ -
            n.get ⟨i, by rw [hn]; exact hi⟩) * rho -
          n.get ⟨i, by rw [hn]; exact hi⟩ =
          (r.get ⟨i, by rw [hr]; exact hi⟩ -
            n.get ⟨i, by rw [hn]; exact hi⟩) * rho := by ring
      rw [heq, abs_mul, abs_of_nonneg hrho]
      calc |r.get ⟨i, by rw [hr]; exact hi⟩ -
            n.get ⟨i, by rw [hn]; exact hi⟩| * rho ≤
            ((comps.get ⟨i, hi⟩).2 - (comps.get ⟨i, hi⟩).1) * rho :=
              mul_le_mul_of_nonneg_right habs hrho
        _ = compRange rho (comps.get ⟨i, hi⟩) := by rw [compRange]; ring

/-- Witness for `steer_within_one_step` at `rho = 1/2`, one component
`(0, 1)`, candidate `[4/5]`, nearest `[0]`, coordinate `0`. -/
theorem steer_within_one_step_witness :
    (0:ℚ) ≤ 1/2 ∧
    ∃ x, (steer (1/2) [((0:ℚ), (1:ℚ))] [(4:ℚ)/5] [(0:ℚ)]).get? 0 = some x ∧
      |x - [(0:ℚ)].get ⟨0, by decide⟩| ≤
        compRange (1/2) ([((0:ℚ), (1:ℚ))].get ⟨0, by decide⟩) :=
  ⟨by norm_num,
   steer_within_one_step (1/2) [((0:ℚ), (1:ℚ))] [(4:ℚ)/5] [(0:ℚ)]
     (by norm_num) rfl rfl 0 (by decide)
     (by norm_num) (by norm_num) (by norm_num) (by norm_num)⟩

/- ### Claims about the incumbent (C2, C4, C9) -/

/-- C2 (counterexample): the recorded distance is not monotonically
non-increasing across all worker writes. Starting from the fresh incumbent,
an approximate write with distance `1/2` stores `1/2`; a subsequent
exact-solution write with distance `1` (lines 92-95 store the distance
without any comparison) raises the stored distance to `1 > 1/2`. -/
theorem approxdif_not_monotone_cex :
    (applyWrite initSolutionInfo (.approx 0 (1/2))).approxdif =
      ((1/2 : ℚ) : WithTop ℚ) ∧
    (applyWrite (applyWrite initSolutionInfo (.approx 0 (1/2)))
        (.exact 1 1)).approxdif = ((1 : ℚ) : WithTop ℚ) ∧
    (applyWrite initSolutionInfo (.approx 0 (1/2))).approxdif <
      (applyWrite (applyWrite initSolutionInfo (.approx 0 (1/2)))
        (.exact 1 1)).approxdif := by
  have h1 : (applyWrite initSolutionInfo (.approx 0 (1/2))).approxdif =
      ((1/2 : ℚ) : WithTop ℚ) := by
    simp only [applyWrite, recordApproxLocked, initSolutionInfo]
    rw [if_pos]
    exact (WithTop.coe_lt_top _)
  refine ⟨h1, rfl, ?_⟩
  rw [h1]
  exact WithTop.coe_lt_coe.mpr (by norm_num)

/-- C2 (amended): the double-checked approximate update never increases the
recorded distance — every `approx` write is non-increasing; only the
unconditional exact-solution write may raise it. -/
theorem approx_write_never_increases (s : SolutionInfo) (m : ℕ) (d : ℚ) :
    (applyWrite s (.approx m d)).approxdif ≤ s.approxdif := by
  simp only [applyWrite, recordApproxLocked]
  split
  · next h => exact le_of_lt h
  · exact le_rfl

/-- C4 (confirmed): the approximate update is double-checked. The lock is
taken exactly when the unlocked comparison finds the distance strictly
smaller; the stored pair is overwritten exactly when, in addition, the
re-check under the lock still finds it strictly smaller than the value
stored at that moment; and the stored value afterwards is the new distance
precisely in that case, else it is left as the locked re-check saw it. -/
theorem tryImproveApprox_double_checked (d : ℚ) (u l : WithTop ℚ) :
    ((tryImproveApprox d u l).tookLock = true ↔ (d : WithTop ℚ) < u) ∧
    ((tryImproveApprox d u l).wrote = true ↔
      (d : WithTop ℚ) < u ∧ (d : WithTop ℚ) < l) ∧
    ((tryImproveApprox d u l).storedAfter =
      if (d : WithTop ℚ) < u ∧ (d : WithTop ℚ) < l then (d : WithTop ℚ)
      else l) := by
  unfold tryImproveApprox
  by_cases h1 : (d : WithTop ℚ) < u <;> by_cases h2 : (d : WithTop ℚ) < l <;>
    simp [h1, h2]

/-- C9 (confirmed): the exact-solution write stores the exact node's
distance unconditionally, and when it is the incumbent's last write of the
solve call, the distance handed to `goal->setDifference` (line 189) is that
exact distance — whatever smaller approximate distances were recorded by
any earlier writes of the same call. -/
theorem exact_write_unconditional (s : SolutionInfo)
    (t : List IncumbentWrite) (m : ℕ) (d : ℚ) :
    (applyWrite s (IncumbentWrite.exact m d)).approxdif = (d : WithTop ℚ) ∧
    reportedDifference
      ((t ++ [IncumbentWrite.exact m d]).foldl applyWrite s) =
      (d : WithTop ℚ) ∧
    ((t ++ [IncumbentWrite.exact m d]).foldl applyWrite s).solution =
      some m := by
  refine ⟨rfl, ?_, ?_⟩ <;>
    simp [List.foldl_append, applyWrite, recordExact, reportedDifference]

/- ### Claim about the worker loop (C6) -/

/-- C6 (confirmed): a worker moves from the loop head into an iteration
exactly when no exact solution is recorded and the deadline has not passed;
a worker mid-iteration applies the whole iteration's incumbent effect
regardless of the shared solution flag or the clock (the condition is
consulted only at the head); and a worker whose own iteration found an
exact solution leaves the loop immediately after its write (the `break` of
line 96). -/
theorem worker_loop_head_check :
    (∀ (s : SolutionInfo) (b : Bool) (o : IterOutcome),
        (workerStep .atHead s b o).1 = .midIteration o ↔
          s.solution = none ∧ b = true) ∧
    (∀ (o : IterOutcome) (s : SolutionInfo) (b b' : Bool)
        (x y : IterOutcome),
        workerStep (.midIteration o) s b x = workerStep (.midIteration o) s b' y) ∧
    (∀ (o : IterOutcome) (s : SolutionInfo) (b : Bool) (x : IterOutcome),
        (workerStep (.midIteration o) s b x).2 = iterEffect s o) ∧
    (∀ (m : ℕ) (d : ℚ) (s : SolutionInfo) (b : Bool) (x : IterOutcome),
        (workerStep (.midIteration (.solved m d)) s b x).1 = .finished) := by
  refine ⟨?_, ?_, ?_, ?_⟩
  · intro s b o
    cases hsol : s.solution <;> cases b <;>
      simp [workerStep, hsol]
  · intro o s b b' x y
    cases o <;> rfl
  · intro o s b x
    cases o <;> rfl
  · intro m d s b x
    rfl

/- ### Claims about the solve prologue (C7, C8) -/

/-- C8 (confirmed): with no goal region configured, `solve` logs the
"Goal undefined" error and returns `false` leaving the tree untouched, with
no deadline computed, no start state seeded, no start-state error logged,
and no worker thread launched. -/
theorem solve_no_goal (sb iv : PState → Bool) (tree : Arena)
    (starts : List PState) :
    solveSetup false sb iv tree starts =
      { returned := some false, tree := tree, startErrors := 0,
        goalError := true, deadlineComputed := false,
        threadsLaunched := false } := rfl

/- ### Claim about getStates (C10) -/

/-- C10 (confirmed): `getStates` leaves the tree exactly as it found it, so
a second call with no intervening `solve` returns the same sequence of
states. -/
theorem getStates_readonly (tree : Arena) :
    (getStates tree).2 = tree ∧
    (getStates ((getStates tree).2)).1 = (getStates tree).1 := ⟨rfl, rfl⟩

/- ### Claim about path reconstruction (C5) -/

/-- Unfolding `chainFrom` at a valid index with positive fuel: the chain is
the motion at the index followed by the walk from its parent. -/
theorem chainFrom_succ (a : Arena) (f i : ℕ) (hi : i < a.length) :
    chainFrom a (f + 1) i =
      (a.get ⟨i, hi⟩) ::
        (match (a.get ⟨i, hi⟩).parent with
         | none => []
         | some p => chainFrom a f p) := by
  conv_lhs => rw [chainFrom]
  rw [List.get?_eq_get hi]

/-- The chain collected from a valid index starts with that index's
motion. -/
theorem chainFrom_head (a : Arena) (f i : ℕ) (hi : i < a.length) :
    (chainFrom a (f + 1) i).head? = some (a.get ⟨i, hi⟩) := by
  rw [chainFrom_succ a f i hi]
  rfl

/-- On a well-formed arena, the walk from any valid index with enough fuel
ends at a parentless motion of the arena (the root reached by following
parent references). -/
theorem chainFrom_getLast_parentless (a : Arena) (hwf : wfArena a) :
    ∀ i, i < a.length → ∀ fuel : ℕ, i < fuel →
    ∃ (j : ℕ) (hj : j < a.length),
      (chainFrom a fuel i).getLast? = some (a.get ⟨j, hj⟩) ∧
      (a.get ⟨j, hj⟩).parent = none := by
  intro i
  induction i using Nat.strong_induction_on with
  | _ i ih =>
    intro hi fuel hfuel
    obtain ⟨f, rfl⟩ : ∃ f, fuel = f + 1 := ⟨fuel - 1, by omega⟩
    cases hp : (a.get ⟨i, hi⟩).parent with
    | none =>
        refine ⟨i, hi, ?_, hp⟩
        rw [chainFrom_succ a f i hi, hp]
        rfl
    | some p =>
        have hpi : p < i := by
          have hw := hwf i hi
          rw [parentEarlier, hp] at hw
          exact of_decide_eq_true hw
        have hpl : p < a.length := Nat.lt_trans hpi hi
        have hpf : p < f := by omega
        obtain ⟨j, hj, hlast, hroot⟩ := ih p hpi hpl f hpf
        refine ⟨j, hj, ?_, hroot⟩
        rw [chainFrom_succ a f i hi, hp]
        show (a.get ⟨i, hi⟩ :: chainFrom a f p).getLast? =
          some (a.get ⟨j, hj⟩)
        cases hl : chainFrom a f p with
        | nil => rw [hl] at hlast; exact absurd hlast (by simp)
        | cons x xs =>
            rw [List.getLast?_cons_cons, ← hl, hlast]

/-- C5 (confirmed): when `solve` ends with a solution node, the reported
path — the parent walk from the solution node, reversed (lines 171-188) —
starts at a parentless root's state and ends at the solution node's state.
Under the seeding discipline of `solve` (every parentless motion in the
tree is a seeded start state, since worker motions always receive a
parent), the path's first state is one of the seeded start states. -/
theorem reconstructPath_endpoints (a : Arena) (starts : List PState)
    (sol : ℕ) (hwf : wfArena a) (hsol : sol < a.length)
    (hroots : ∀ i (h : i < a.length), (a.get ⟨i, h⟩).parent = none →
      (a.get ⟨i, h⟩).state ∈ starts) :
    ∃ s, (reconstructPath a sol).head? = some s ∧ s ∈ starts ∧
      (reconstructPath a sol).getLast? =
        some ((a.get ⟨sol, hsol⟩).state) := by
  obtain ⟨j, hj, hlast, hroot⟩ :=
    chainFrom_getLast_parentless a hwf sol hsol a.length hsol
  refine ⟨(a.get ⟨j, hj⟩).state, ?_, hroots j hj hroot, ?_⟩
  · rw [reconstructPath, List.head?_reverse, List.getLast?_map, hlast]
    rfl
  · rw [reconstructPath, List.getLast?_reverse, List.head?_map]
    obtain ⟨f, hf⟩ : ∃ f, a.length = f + 1 := ⟨a.length - 1, by omega⟩
    conv_lhs => rw [hf]
    rw [chainFrom_head a f sol hsol]
    rfl

/-- Witness for `reconstructPath_endpoints`: a two-node arena whose root
`[0, 0]` is the only seeded start and whose solution node `[1, 1]` has the
root as parent. -/
theorem reconstructPath_endpoints_witness :
    wfArena [Motion.mk [0, 0] none, Motion.mk [1, 1] (some 0)] ∧
    1 < (([Motion.mk [0, 0] none, Motion.mk [1, 1] (some 0)] : Arena)).length ∧
    ∃ s, (reconstructPath [Motion.mk [0, 0] none, Motion.mk [1, 1] (some 0)]
            1).head? = some s ∧ s ∈ [([0, 0] : PState)] ∧
      (reconstructPath [Motion.mk [0, 0] none, Motion.mk [1, 1] (some 0)]
          1).getLast? =
        some ((([Motion.mk [0, 0] none, Motion.mk [1, 1] (some 0)] :
          Arena)).get ⟨1, by decide⟩).state := by
  refine ⟨?_, by decide, ?_⟩
  · intro i h
    match i, h with
    | 0, _ => rfl
    | 1, _ => rfl
  · refine reconstructPath_endpoints
      [Motion.mk [0, 0] none, Motion.mk [1, 1] (some 0)] [[0, 0]] 1
      ?_ (by decide) ?_
    · intro i h
      match i, h with
      | 0, _ => rfl
      | 1, _ => rfl
    · intro i h hp
      match i, h with
      | 0, _ => exact List.mem_singleton.mpr rfl
      | 1, _ => exact absurd hp (by simp)

/- ### Claim about seeding (C7) -/

/-- The seeding fold, from any starting tree and error count: it appends a
parentless motion for every start state passing both checks, in order, and
counts one error per rejected start state. -/
theorem seedTree_foldl (sb iv : PState → Bool) (starts : List PState) :
    ∀ (tree : Arena) (e : ℕ),
    starts.foldl (seedStep sb iv) (tree, e) =
      (tree ++ (starts.filter (fun s => sb s && iv s)).map
          (fun s => Motion.mk s none),
       e + (starts.filter (fun s => !(sb s && iv s))).length) := by
  induction starts with
  | nil => intro tree e; simp
  | cons s t ih =>
      intro tree e
      rw [List.foldl_cons]
      cases hs : sb s with
      | true =>
          cases hv : iv s with
          | true =>
              have hps : (sb s && iv s) = true := by rw [hs, hv]; rfl
              rw [show seedStep sb iv (tree, e) s =
                  (tree ++ [Motion.mk s none], e) by simp [seedStep, hps]]
              rw [ih]
              have hfp : List.filter (fun x => sb x && iv x) (s :: t) =
                  s :: List.filter (fun x => sb x && iv x) t := by
                rw [List.filter_cons]; simp [hps]
              have hfq : List.filter (fun x => !(sb x && iv x)) (s :: t) =
                  List.filter (fun x => !(sb x && iv x)) t := by
                rw [List.filter_cons]; simp [hps]
              rw [hfp, hfq]
              exact Prod.ext (by simp [List.append_assoc]) rfl
          | false =>
              have hps : (sb s && iv s) = false := by rw [hs, hv]; rfl
              rw [show seedStep sb iv (tree, e) s = (tree, e + 1) by
                simp [seedStep, hps]]
              rw [ih]
              have hfp : List.filter (fun x => sb x && iv x) (s :: t) =
                  List.filter (fun x => sb x && iv x) t := by
                rw [List.filter_cons]; simp [hps]
              have hfq : List.filter (fun x => !(sb x && iv x)) (s :: t) =
                  s :: List.filter (fun x => !(sb x && iv x)) t := by
                rw [List.filter_cons]; simp [hps]
              rw [hfp, hfq]
              exact Prod.ext rfl (by rw [List.length_cons]; omega)
      | false =>
          have hps : (sb s && iv s) = false := by rw [hs]; rfl
          rw [show seedStep sb iv (tree, e) s = (tree, e + 1) by
            simp [seedStep, hps]]
          rw [ih]
          have hfp : List.filter (fun x => sb x && iv x) (s :: t) =
              List.filter (fun x => sb x && iv x) t := by
            rw [List.filter_cons]; simp [hps]
          have hfq : List.filter (fun x => !(sb x && iv x)) (s :: t) =
              s :: List.filter (fun x => !(sb x && iv x)) t := by
            rw [List.filter_cons]; simp [hps]
          rw [hfp, hfq]
          exact Prod.ext rfl (by rw [List.length_cons]; omega)

/-- C7 (confirmed): seeding from an empty tree adds exactly the start
states passing both the bounds check and the validity check (in order, as
parentless motions), logs one error per rejected start state, and when no
valid start state results `solve` returns `false` with an empty tree and
no worker thread launched. -/
theorem solve_seeding (sb iv : PState → Bool) (starts : List PState) :
    (seedTree sb iv [] starts).1 =
      (starts.filter (fun s => sb s && iv s)).map
        (fun s => Motion.mk s none) ∧
    (seedTree sb iv [] starts).2 =
      (starts.filter (fun s => !(sb s && iv s))).length ∧
    ((starts.filter (fun s => sb s && iv s)) = [] →
      (solveSetup true sb iv [] starts).returned = some false ∧
      (solveSetup true sb iv [] starts).threadsLaunched = false ∧
      (solveSetup true sb iv [] starts).tree = []) := by
  have key := seedTree_foldl sb iv starts [] 0
  have h1 : (seedTree sb iv [] starts).1 =
      (starts.filter (fun s => sb s && iv s)).map
        (fun s => Motion.mk s none) := by
    rw [seedTree, key]; simp
  have h2 : (seedTree sb iv [] starts).2 =
      (starts.filter (fun s => !(sb s && iv s))).length := by
    rw [seedTree, key]
    exact Nat.zero_add _
  refine ⟨h1, h2, fun h => ?_⟩
  have hz : (seedTree sb iv [] starts).1 = [] := by rw [h1, h]; rfl
  refine ⟨?_, ?_, ?_⟩ <;> simp [solveSetup, hz]

/-- Witness for `solve_seeding` with no start states at all: zero valid
start states result and `solve` reports failure without launching
threads. -/
theorem solve_seeding_witness :
    List.filter (fun s => (fun _ : PState => true) s &&
        (fun _ : PState => true) s) ([] : List PState) = [] ∧
    ((solveSetup true (fun _ : PState => true) (fun _ : PState => true)
        [] []).returned = some false ∧
      (solveSetup true (fun _ : PState => true) (fun _ : PState => true)
        [] []).threadsLaunched = false ∧
      (solveSetup true (fun _ : PState => true) (fun _ : PState => true)
        [] []).tree = []) :=
  ⟨rfl, (solve_seeding (fun _ => true) (fun _ => true) []).2.2 rfl⟩
